import Mathlib

/-!
Shallow embedding of the configuration-value resolution engine of the
`awstools` repository (`common/config_values.go`), together with proofs of
the specification's claims about it.

Modelling conventions:
* Go `map[string]T` values are represented as association lists in a fixed
  iteration order; Go map assignment `m[k] = v` is `upsert` (replace the
  binding of `k` if present, else append).  Go map iteration order is
  unspecified; the embedding fixes the textual order of the literals in the
  source.  The two iterated prefix tables contain mutually exclusive
  prefixes (no string starts with two of them), so the fixed order is
  observationally equal to any Go iteration order.
* Go `interface{}` configuration values are the inductive `Value`: a string,
  a nested map, a `Source` placeholder struct, or any other JSON scalar
  (number/bool/null/array), which `GenerateFromMap`/`RefreshMap` only ever
  copy through their `default` branch, collapsed into `Value.vother`.
* The AWS/filesystem boundary (`ioutil.ReadFile`, SSM `GetParameter` /
  `GetParametersByPath`, Secrets Manager `GetSecretValue` + JSON decode,
  `DecryptWithKMS`) is an oracle `World` of fallible functions; errors are
  `Except String`.  Lazy AWS-client construction in `RefreshState` has no
  observable effect on results and is not modelled.
* Go byte-indexed slicing of the ASCII prefixes/suffixes is modelled with
  character-level operations, which agree on ASCII.
-/

set_option autoImplicit false

namespace Awstools

/-- Character-list model of Go `strings.HasPrefix`. -/
def goHasPfx (s pre : String) : Bool :=
  pre.data.isPrefixOf s.data

/-- Character-list model of Go `strings.HasSuffix`. -/
def goHasSfx (s suf : String) : Bool :=
  suf.data.isSuffixOf s.data

/-- Helper for `goSplit`: accumulate the current segment (reversed). -/
def goSplitAux (sep : Char) : List Char → List Char → List String
  | [], acc => [String.mk acc.reverse]
  | ch :: rest, acc =>
    if ch = sep then String.mk acc.reverse :: goSplitAux sep rest []
    else goSplitAux sep rest (ch :: acc)

/-- Character-list model of Go `strings.Split` with a one-character
separator (the source only splits on `"/"`). -/
def goSplit (s : String) (sep : Char) : List String :=
  goSplitAux sep s.data []

/-- Embeds the Go struct `Source`.  The Go field `Type` is rendered
`type_` because `Type` is reserved in Lean. -/
structure Source where
  type_ : String
  Name : String
  Identifier : String
deriving DecidableEq, Repr

/-- Embeds the Go `interface{}` values a configuration tree can hold. -/
inductive Value where
  | vstr : String → Value
  | vsrc : Source → Value
  | vother : Int → Value
  | vmap : List (String × Value) → Value
deriving Repr

/-- Association-list representation of a Go `map[string]interface{}`. -/
abbrev Entries := List (String × Value)

/-- Go map assignment `dst[k] = v` on the association-list model. -/
def upsert (m : Entries) (k : String) (v : Value) : Entries :=
  if m.any (fun p => p.1 == k) then
    m.map (fun p => if p.1 == k then (k, v) else p)
  else m ++ [(k, v)]

/-- Go map assignment for a `map[string]string`. -/
def strUpsert (m : List (String × String)) (k v : String) : List (String × String) :=
  if m.any (fun p => p.1 == k) then
    m.map (fun p => if p.1 == k then (k, v) else p)
  else m ++ [(k, v)]

/-- Embeds the Go struct `ConfigValues`. -/
structure ConfigValues where
  Sources : List (String × List Source)
  Static : Entries
  MaxRetries : Nat
  KeyPrefixes : List (String × String)
  ValuePrefixes : List (String × String)

/-- Embeds `NewConfigValues`. -/
def NewConfigValues : ConfigValues :=
  { Sources := []
    Static := []
    MaxRetries := 5
    KeyPrefixes :=
      [("KMS", "KMS_"), ("SSM", "SSM_"),
       ("SECRETS_MANAGER", "SECRETS_MANAGER_"), ("FILE", "FILE_")]
    ValuePrefixes :=
      [("KMS", "kms://"), ("SSM", "ssm://"),
       ("SECRETS_MANAGER", "secrets-manager://"), ("FILE", "file://")] }

/-- Embeds `Clear`: resets `Sources` and `Static` to empty maps. -/
def Clear (c : ConfigValues) : ConfigValues :=
  { c with Sources := [], Static := [] }

/-- Embeds `IsRefreshable`: `len(c.Sources) > 0`. -/
def IsRefreshable (c : ConfigValues) : Bool :=
  decide (c.Sources.length > 0)

/-- Embeds the Go loop `for secretType, prefix := range table` with a
`break` at the first entry whose prefix starts the given string. -/
def findPfxMatch (table : List (String × String)) (s : String) : Option (String × String) :=
  table.find? (fun p => goHasPfx s p.2)

mutual

/-- Embeds one iteration of the `GenerateFromMap` loop body: given an
entry `(key, value)` of `src`, produce the key/value pair stored into
`dst` (key-prefix check first, then value-prefix check, else the literal). -/
def GenerateEntry (c : ConfigValues) (key : String) (value : Value) :
    Except String (String × Value) :=
  match value with
  | .vmap m =>
    match GenerateFromMapAux c m [] with
    | .error e => .error e
    | .ok val => .ok (key, .vmap val)
  | .vstr s =>
    match findPfxMatch c.KeyPrefixes key with
    | some (secretType, pfx) =>
      let stripped := key.drop pfx.length
      let nm := if goHasPfx stripped "_" then "" else stripped
      .ok (nm, .vsrc ⟨secretType, nm, s⟩)
    | none =>
      match findPfxMatch c.ValuePrefixes s with
      | some (secretType, pfx) =>
        .ok (key, .vsrc ⟨secretType, key, s.drop pfx.length⟩)
      | none => .ok (key, .vstr s)
  | v => .ok (key, v)
termination_by structural value

/-- Embeds `GenerateFromMap`'s loop over `src`, accumulating `dst`. -/
def GenerateFromMapAux (c : ConfigValues) (src : Entries) (dst : Entries) :
    Except String Entries :=
  match src, dst with
  | [], dst => .ok dst
  | (key, value) :: rest, dst =>
    match GenerateEntry c key value with
    | .error e => .error e
    | .ok (k, v) => GenerateFromMapAux c rest (upsert dst k v)
termination_by structural src

end

/-- Embeds `GenerateFromMap`. -/
def GenerateFromMap (c : ConfigValues) (src : Entries) : Except String Entries :=
  GenerateFromMapAux c src []

/-- Embeds `SetFromMap`: on success the receiver's `Static` is replaced,
on error the receiver is untouched.  The second component is the receiver
after the call. -/
def SetFromMap (c : ConfigValues) (m : Entries) : Except String Unit × ConfigValues :=
  match GenerateFromMap c m with
  | .error e => (.error e, c)
  | .ok res => (.ok (), { c with Static := res })

/-- Embeds `SetFromJSON`: `LoadJSON` (file read + JSON decode, an external
effect) is modelled by its outcome `parsed`; on a load error the receiver
is untouched, otherwise the call is `SetFromMap`. -/
def SetFromJSON (c : ConfigValues) (parsed : Except String Entries) :
    Except String Unit × ConfigValues :=
  match parsed with
  | .error e => (.error e, c)
  | .ok m => SetFromMap c m

/-- Oracle for the external provider calls made during a refresh: the
filesystem (`ioutil.ReadFile`), SSM `GetParameter` (value of the named
parameter) and `GetParametersByPath` (list of (full name, value) pairs
under a path), Secrets Manager `GetSecretValue` combined with the
base64/JSON decoding in `secretsManagerGetSecretValue` (flat string map),
and `DecryptWithKMS` (decrypted plaintext). -/
structure World where
  ReadFile : String → Except String String
  GetParameter : String → Except String String
  GetParametersByPath : String → Except String (List (String × String))
  GetSecretValue : String → Except String (List (String × String))
  Decrypt : String → Except String String

/-- Embeds `ssmGetParameter` (extracting `res.Parameter.Value` is folded
into the oracle). -/
def ssmGetParameter (w : World) (name : String) : Except String String :=
  w.GetParameter name

/-- Embeds the result-map loop of `getParametersByPath`: key each
parameter value by the last `/`-separated segment of its full name. -/
def lastSegmentMap (params : List (String × String)) : List (String × String) :=
  params.foldl
    (fun result p => strUpsert result ((goSplit p.1 '/').getLastD "") p.2) []

/-- Embeds `getParametersByPath`: fetch all parameters under `path` and
re-key them by last name segment. -/
def getParametersByPath (w : World) (path : String) :
    Except String (List (String × String)) :=
  match w.GetParametersByPath path with
  | .error e => .error e
  | .ok params => .ok (lastSegmentMap params)

/-- Embeds `secretsManagerGetSecretValue` (the AWS call plus base64/JSON
decode are the oracle). -/
def secretsManagerGetSecretValue (w : World) (secretName : String) :
    Except String (List (String × String)) :=
  w.GetSecretValue secretName

/-- Embeds `DecryptWithKMS` (declared in the `common` package outside this
file; its internals are the oracle). -/
def DecryptWithKMS (w : World) (ciphertext : String) : Except String String :=
  w.Decrypt ciphertext

/-- Converts a Go `map[string]string` to a configuration `Value` map, as
`json.Marshal` renders both map kinds identically. -/
def strMapToEntries (m : List (String × String)) : Entries :=
  m.map (fun p => (p.1, Value.vstr p.2))

/-- Embeds the `case Source` arm of the `RefreshMap` switch: dispatch on
`source.Type`, returning the key/value pair stored into `dst` (`none`
when the type matches no case, in which case the Go switch stores
nothing). -/
def refreshSource (w : World) (key : String) (source : Source) :
    Except String (Option (String × Value)) :=
  match source.type_ with
  | "FILE" =>
    match w.ReadFile source.Identifier with
    | .error e => .error e
    | .ok bytes => .ok (some (source.Name, .vstr bytes))
  | "SSM" =>
    if goHasSfx source.Identifier "/*" then
      match getParametersByPath w (source.Identifier.dropRight 2) with
      | .error e => .error e
      | .ok values => .ok (some (key, .vmap (strMapToEntries values)))
    else
      match ssmGetParameter w source.Identifier with
      | .error e => .error e
      | .ok value => .ok (some (source.Name, .vstr value))
  | "SECRETS_MANAGER" =>
    match secretsManagerGetSecretValue w source.Identifier with
    | .error e => .error e
    | .ok values => .ok (some (key, .vmap (strMapToEntries values)))
  | "KMS" =>
    match DecryptWithKMS w source.Identifier with
    | .error e => .error e
    | .ok value => .ok (some (source.Name, .vstr value))
  | _ => .ok none

mutual

/-- Embeds one iteration of the `RefreshMap` loop body. -/
def RefreshEntry (w : World) (key : String) (value : Value) :
    Except String (Option (String × Value)) :=
  match value with
  | .vmap m =>
    match RefreshMapAux w m [] with
    | .error e => .error e
    | .ok res => .ok (some (key, .vmap res))
  | .vsrc source => refreshSource w key source
  | v => .ok (some (key, v))
termination_by structural value

/-- Embeds `RefreshMap`'s loop over `src`, accumulating `dst`. -/
def RefreshMapAux (w : World) (src : Entries) (dst : Entries) :
    Except String Entries :=
  match src, dst with
  | [], dst => .ok dst
  | (key, value) :: rest, dst =>
    match RefreshEntry w key value with
    | .error e => .error e
    | .ok none => RefreshMapAux w rest dst
    | .ok (some (k, v)) => RefreshMapAux w rest (upsert dst k v)
termination_by structural src

end

/-- Embeds `RefreshMap`. -/
def RefreshMap (src : Entries) (w : World) : Except String Entries :=
  RefreshMapAux w src []

/-- Embeds `Refresh`.  The `json.Marshal`/`json.Unmarshal` round-trip into
the caller's `output` is modelled as delivering the refreshed entries on
success; on error the output is never produced.  The method body assigns
no receiver field, so the second component (the receiver after the call)
is the input receiver. -/
def Refresh (c : ConfigValues) (w : World) : Except String Entries × ConfigValues :=
  (RefreshMap c.Static w, c)

/-- Observable outcome of `RefreshWithRetries`: the returned value, the
number of `Refresh` calls made, the `time.Sleep` durations (in seconds, in
order), and the receiver after the call. -/
structure RetryOutcome where
  result : Except String Entries
  attempts : Nat
  sleeps : List Nat
  receiver : ConfigValues

/-- Embeds the `for i := 0; i < c.MaxRetries; i++` loop of
`RefreshWithRetries`: `remaining` counts the iterations left, `wait` is
the mutable backoff variable (initially 2), `attempts` the `Refresh` calls
made so far (also indexing the per-attempt world `ws`), and `sleeps` the
reversed sleep log. -/
def RefreshWithRetriesAux (ws : Nat → World) (c : ConfigValues) :
    Nat → Nat → Nat → List Nat → RetryOutcome
  | 0, _wait, attempts, sleeps =>
    ⟨.error "Failed to refresh config", attempts, sleeps.reverse, c⟩
  | remaining + 1, wait, attempts, sleeps =>
    match Refresh c (ws attempts) with
    | (.ok env, c2) => ⟨.ok env, attempts + 1, sleeps.reverse, c2⟩
    | (.error _, c2) =>
      RefreshWithRetriesAux ws c2 remaining (wait * 2) (attempts + 1)
        ((wait * 2) :: sleeps)

/-- Embeds `RefreshWithRetries` (`wait` starts at 2, at most `MaxRetries`
iterations).  Successive attempts may observe different external states,
hence the per-attempt world `ws`. -/
def RefreshWithRetries (c : ConfigValues) (ws : Nat → World) : RetryOutcome :=
  RefreshWithRetriesAux ws c c.MaxRetries 2 0 []

/-- Boolean success test for an `Except` result. -/
def exceptIsOk {ε α : Type} : Except ε α → Bool
  | .ok _ => true
  | .error _ => false

/-- Provider call performed for one `Source` during a refresh (the part of
`refreshSource` that can fail), used to state abort-on-error claims. -/
def sourceFetch (w : World) (s : Source) : Except String Unit :=
  match s.type_ with
  | "FILE" =>
    match w.ReadFile s.Identifier with
    | .error e => .error e
    | .ok _ => .ok ()
  | "SSM" =>
    if goHasSfx s.Identifier "/*" then
      match getParametersByPath w (s.Identifier.dropRight 2) with
      | .error e => .error e
      | .ok _ => .ok ()
    else
      match ssmGetParameter w s.Identifier with
      | .error e => .error e
      | .ok _ => .ok ()
  | "SECRETS_MANAGER" =>
    match secretsManagerGetSecretValue w s.Identifier with
    | .error e => .error e
    | .ok _ => .ok ()
  | "KMS" =>
    match DecryptWithKMS w s.Identifier with
    | .error e => .error e
    | .ok _ => .ok ()
  | _ => .ok ()

mutual

/-- Collects the `Source` placeholders contained in a value. -/
def sourcesOfValue : Value → List Source
  | .vmap m => sourcesOfEntries m
  | .vsrc s => [s]
  | _ => []
termination_by structural v => v

/-- Collects the `Source` placeholders contained in a configuration map. -/
def sourcesOfEntries : Entries → List Source
  | [] => []
  | (_, v) :: rest => sourcesOfValue v ++ sourcesOfEntries rest
termination_by structural src => src

end

mutual

/-- Holds when no string leaf of the value carries a value-prefix of `c`
and no key of a nested map carries a key-prefix of `c`. -/
def noPfxValue (c : ConfigValues) : Value → Bool
  | .vstr s => findPfxMatch c.ValuePrefixes s == none
  | .vmap m => noPfxEntries c m
  | _ => true
termination_by structural v => v

/-- Holds when no key of the map (at any depth) carries a key-prefix of
`c` and no string value carries a value-prefix of `c`. -/
def noPfxEntries (c : ConfigValues) : Entries → Bool
  | [] => true
  | (k, v) :: rest =>
    (findPfxMatch c.KeyPrefixes k == none) && noPfxValue c v && noPfxEntries c rest
termination_by structural src => src

end

mutual

/-- Holds when the value contains no `Source` placeholder. -/
def sourceFreeValue : Value → Bool
  | .vmap m => sourceFreeEntries m
  | .vsrc _ => false
  | _ => true
termination_by structural v => v

/-- Holds when the map contains no `Source` placeholder at any depth. -/
def sourceFreeEntries : Entries → Bool
  | [] => true
  | (_, v) :: rest => sourceFreeValue v && sourceFreeEntries rest
termination_by structural src => src

end

mutual

/-- Well-formedness of the association-list encoding of a Go map: keys
are pairwise distinct at every nesting level (Go maps cannot hold
duplicate keys). -/
def wfValue : Value → Bool
  | .vmap m => wfEntries m
  | _ => true
termination_by structural v => v

/-- Well-formedness of a configuration map: see `wfValue`. -/
def wfEntries : Entries → Bool
  | [] => true
  | (k, v) :: rest =>
    rest.all (fun p => !(p.1 == k)) && wfValue v && wfEntries rest
termination_by structural src => src

end

/-- Resolution of a raw configuration map: placeholder recognition
(`GenerateFromMap`, as run by `SetFromMap`) followed by placeholder
dereferencing (`RefreshMap`, as run by `Refresh`). -/
def resolveConfig (c : ConfigValues) (w : World) (src : Entries) :
    Except String Entries :=
  match GenerateFromMap c src with
  | .error e => .error e
  | .ok placeholders => RefreshMap placeholders w

/-- Statement-side restatement of the claimed per-leaf behaviour of
`GenerateFromMap`, written from the specification's wording: key-prefix
match first (name is the stripped key, or empty when the remainder starts
with an underscore, identifier is the untouched value), else value-prefix
match (original key, identifier is the value with the prefix removed),
else the literal is kept. -/
def leafResolutionSpec (c : ConfigValues) (key value : String) : String × Value :=
  match findPfxMatch c.KeyPrefixes key with
  | some (provider, pfx) =>
    let stripped := key.drop pfx.length
    let nm := if goHasPfx stripped "_" then "" else stripped
    (nm, .vsrc ⟨provider, nm, value⟩)
  | none =>
    match findPfxMatch c.ValuePrefixes value with
    | some (provider, pfx) => (key, .vsrc ⟨provider, key, value.drop pfx.length⟩)
    | none => (key, .vstr value)

/-- Exported mutating operations of `ConfigValues`, for stating invariants
over arbitrary call sequences. -/
inductive ConfigOp where
  | clearOp : ConfigOp
  | setFromMapOp : Entries → ConfigOp
  | setFromJSONOp : Except String Entries → ConfigOp
  | refreshOp : World → ConfigOp
  | refreshWithRetriesOp : (Nat → World) → ConfigOp

/-- Receiver state after running one exported operation. -/
def applyOp (c : ConfigValues) : ConfigOp → ConfigValues
  | .clearOp => Clear c
  | .setFromMapOp m => (SetFromMap c m).2
  | .setFromJSONOp parsed => (SetFromJSON c parsed).2
  | .refreshOp w => (Refresh c w).2
  | .refreshWithRetriesOp ws => (RefreshWithRetries c ws).receiver

/-- Example world in which every provider call succeeds. -/
def exWorldOk : World :=
  { ReadFile := fun _ => .ok "file-contents"
    GetParameter := fun _ => .ok "param-value"
    GetParametersByPath := fun _ => .ok [("/app/db/host", "h1"), ("/app/db/port", "5432")]
    GetSecretValue := fun _ => .ok [("user", "admin")]
    Decrypt := fun _ => .ok "plaintext" }

/-- Example world in which every provider call fails. -/
def exWorldFail : World :=
  { ReadFile := fun _ => .error "open failed"
    GetParameter := fun _ => .error "ssm failed"
    GetParametersByPath := fun _ => .error "ssm path failed"
    GetSecretValue := fun _ => .error "secrets failed"
    Decrypt := fun _ => .error "kms failed" }

/-- Example configuration holding one `FILE` placeholder. -/
def exConfig : ConfigValues :=
  { NewConfigValues with Static := [("x", .vsrc ⟨"FILE", "x", "/tmp/x"⟩)] }

/-- Example per-attempt worlds: the first attempt fails, later ones
succeed. -/
def exWorlds : Nat → World :=
  fun i => if i == 0 then exWorldFail else exWorldOk

/-- Index, relative to `start`, of the first of the next `n` attempt
positions at which the predicate holds. -/
def firstOkIdx (p : Nat → Bool) (start : Nat) : Nat → Option Nat
  | 0 => none
  | n + 1 => if p start then some 0 else (firstOkIdx p (start + 1) n).map (· + 1)

/-- Example nested configuration with no provider placeholders. -/
def exPlain : Entries :=
  [("a", .vstr "literal"), ("b", .vmap [("c", .vother 2), ("d", .vstr "x")])]

@[simp]
theorem upsert_nil (k : String) (v : Value) : upsert [] k v = [(k, v)] := rfl

theorem upsert_append (dst : Entries) (k : String) (v : Value)
    (h : dst.all (fun p => !(p.1 == k)) = true) : upsert dst k v = dst ++ [(k, v)] := by
  have hany : dst.any (fun p => p.1 == k) = false := by
    simp only [List.any_eq_false]
    intro p hp
    simpa using (List.all_eq_true.mp h) p hp
  simp [upsert, hany]

theorem RefreshWithRetriesAux_receiver (ws : Nat → World) :
    ∀ (remaining : Nat) (c : ConfigValues) (wait attempts : Nat) (sleeps : List Nat),
      (RefreshWithRetriesAux ws c remaining wait attempts sleeps).receiver = c := by
  intro remaining
  induction remaining with
  | zero => intro c wait attempts sleeps; rfl
  | succ n ih =>
    intro c wait attempts sleeps
    simp only [RefreshWithRetriesAux, Refresh]
    cases hro : RefreshMap c.Static (ws attempts) with
    | ok env => rfl
    | error e => exact ih c (wait * 2) (attempts + 1) ((wait * 2) :: sleeps)

theorem applyOp_Sources_empty (c : ConfigValues) (op : ConfigOp) (h : c.Sources = []) :
    (applyOp c op).Sources = [] := by
  cases op with
  | clearOp => rfl
  | setFromMapOp m =>
    simp only [applyOp, SetFromMap]
    cases GenerateFromMap c m <;> simpa using h
  | setFromJSONOp parsed =>
    simp only [applyOp, SetFromJSON]
    cases parsed with
    | error e => simpa using h
    | ok m =>
      simp only [SetFromMap]
      cases GenerateFromMap c m <;> simpa using h
  | refreshOp w => simpa using h
  | refreshWithRetriesOp ws =>
    simpa [applyOp, RefreshWithRetries, RefreshWithRetriesAux_receiver] using h

theorem foldl_applyOp_Sources :
    ∀ (ops : List ConfigOp) (c : ConfigValues), c.Sources = [] →
      (ops.foldl applyOp c).Sources = [] := by
  intro ops
  induction ops with
  | nil => intro c h; exact h
  | cons op rest ih => intro c h; exact ih _ (applyOp_Sources_empty c op h)

/-- C10: starting from `NewConfigValues` and applying any sequence of the
exported operations (`Clear`, `SetFromMap`, `SetFromJSON`, `Refresh`,
`RefreshWithRetries`), the `Sources` map stays empty — `GenerateFromMap`
stores its `Source` placeholders inside `Static`, never in `Sources` — so
`IsRefreshable` always returns `false`. -/
theorem Sources_remains_empty (ops : List ConfigOp) :
    (ops.foldl applyOp NewConfigValues).Sources = [] ∧
    IsRefreshable (ops.foldl applyOp NewConfigValues) = false := by
  have hs : (ops.foldl applyOp NewConfigValues).Sources = [] :=
    foldl_applyOp_Sources ops NewConfigValues rfl
  exact ⟨hs, by simp [IsRefreshable, hs]⟩

/-- C5: per-leaf behaviour of `GenerateFromMap` on a string leaf
`(key, value)`: a key-prefix match binds the stripped name (empty when the
remainder starts with an underscore) to a `Source` whose identifier is the
untouched value; otherwise a value-prefix match binds the original key to
a `Source` whose identifier is the value with the prefix removed;
otherwise the literal is kept under the key — exactly
`leafResolutionSpec`, the restatement of the specification's wording. -/
theorem GenerateFromMap_leaf_semantics (c : ConfigValues) (key value : String) :
    GenerateFromMap c [(key, .vstr value)] = .ok [leafResolutionSpec c key value] := by
  simp only [GenerateFromMap, GenerateFromMapAux, GenerateEntry, leafResolutionSpec]
  cases hk : findPfxMatch c.KeyPrefixes key with
  | some tp =>
    obtain ⟨t, p⟩ := tp
    simp [GenerateFromMapAux]
  | none =>
    cases hv : findPfxMatch c.ValuePrefixes value with
    | some tp =>
      obtain ⟨t, p⟩ := tp
      simp [GenerateFromMapAux]
    | none => simp [GenerateFromMapAux]

/-- C4: when a string leaf's key matches a key-prefix and its value also
matches a value-prefix, `GenerateFromMap` records the `Source` determined
by the key-prefix: the provider comes from the key table and the
identifier is the whole value, untouched by value-prefix stripping — the
value-prefix branch is only reached when no key-prefix matched. -/
theorem GenerateFromMap_key_over_value_precedence (c : ConfigValues)
    (key s t p t2 p2 : String)
    (hk : findPfxMatch c.KeyPrefixes key = some (t, p))
    (hv : findPfxMatch c.ValuePrefixes s = some (t2, p2)) :
    GenerateFromMap c [(key, .vstr s)] =
      .ok [(if goHasPfx (key.drop p.length) "_" then "" else key.drop p.length,
            Value.vsrc ⟨t, if goHasPfx (key.drop p.length) "_" then ""
                           else key.drop p.length, s⟩)] := by
  simp [GenerateFromMap, GenerateFromMapAux, GenerateEntry, hk]

/-- Witness for C4 at a concrete input: key `KMS_FOO` (key-prefix `KMS_`)
with value `ssm://x` (value-prefix `ssm://`) resolves through the
key-prefix branch, keeping the full value as identifier. -/
theorem GenerateFromMap_precedence_witness :
    GenerateFromMap NewConfigValues [("KMS_FOO", .vstr "ssm://x")] =
      .ok [(if goHasPfx (("KMS_FOO" : String).drop ("KMS_" : String).length) "_" then ""
            else ("KMS_FOO" : String).drop ("KMS_" : String).length,
            Value.vsrc ⟨"KMS", if goHasPfx (("KMS_FOO" : String).drop ("KMS_" : String).length) "_"
                               then "" else ("KMS_FOO" : String).drop ("KMS_" : String).length,
                        "ssm://x"⟩)] :=
  GenerateFromMap_key_over_value_precedence NewConfigValues "KMS_FOO" "ssm://x"
    "KMS" "KMS_" "SSM" "ssm://" (by decide) (by decide)

/-- C9: `Refresh` and `RefreshWithRetries` leave the receiver unchanged
(all five fields), while `Clear` resets only `Sources`/`Static` and
`SetFromMap`/`SetFromJSON` replace only `Static`. -/
theorem Refresh_preserves_receiver (c : ConfigValues) (w : World) (ws : Nat → World)
    (m : Entries) (parsed : Except String Entries) :
    (Refresh c w).2 = c ∧
    (RefreshWithRetries c ws).receiver = c ∧
    (Clear c).Sources = [] ∧ (Clear c).Static = [] ∧
    (Clear c).MaxRetries = c.MaxRetries ∧
    (Clear c).KeyPrefixes = c.KeyPrefixes ∧
    (Clear c).ValuePrefixes = c.ValuePrefixes ∧
    (SetFromMap c m).2.Sources = c.Sources ∧
    (SetFromMap c m).2.MaxRetries = c.MaxRetries ∧
    (SetFromMap c m).2.KeyPrefixes = c.KeyPrefixes ∧
    (SetFromMap c m).2.ValuePrefixes = c.ValuePrefixes ∧
    (SetFromJSON c parsed).2.Sources = c.Sources ∧
    (SetFromJSON c parsed).2.MaxRetries = c.MaxRetries := by
  refine ⟨rfl, RefreshWithRetriesAux_receiver ws c.MaxRetries c 2 0 [], rfl, rfl, rfl, rfl, rfl,
    ?_, ?_, ?_, ?_, ?_, ?_⟩ <;>
  · simp only [SetFromMap, SetFromJSON]
    first
    | (cases GenerateFromMap c m <;> rfl)
    | (cases parsed with
       | error e => rfl
       | ok mm =>
         simp only [SetFromMap]
         cases GenerateFromMap c mm <;> rfl)

theorem strUpsert_append (m : List (String × String)) (k v : String)
    (h : m.all (fun p => !(p.1 == k)) = true) : strUpsert m k v = m ++ [(k, v)] := by
  have hany : m.any (fun p => p.1 == k) = false := by
    simp only [List.any_eq_false]
    intro p hp
    simpa using (List.all_eq_true.mp h) p hp
  simp [strUpsert, hany]

theorem foldl_strUpsert_eq_map :
    ∀ (ps acc : List (String × String)),
      (ps.map (fun p => (goSplit p.1 '/').getLastD "")).Nodup →
      (∀ p ∈ ps, ∀ q ∈ acc, q.1 ≠ (goSplit p.1 '/').getLastD "") →
      ps.foldl (fun result p => strUpsert result ((goSplit p.1 '/').getLastD "") p.2) acc =
        acc ++ ps.map (fun p => ((goSplit p.1 '/').getLastD "", p.2)) := by
  intro ps
  induction ps with
  | nil => intro acc _ _; simp
  | cons p rest ih =>
    intro acc hnd hdis
    simp only [List.map_cons, List.nodup_cons, List.mem_map] at hnd
    obtain ⟨hnotin, hndrest⟩ := hnd
    simp only [List.foldl_cons, List.map_cons]
    rw [strUpsert_append _ _ _ (by
      simp only [List.all_eq_true, Bool.not_eq_true', beq_eq_false_iff_ne, ne_eq]
      intro q hq
      exact hdis p (List.mem_cons_self p rest) q hq)]
    rw [ih (acc ++ [((goSplit p.1 '/').getLastD "", p.2)]) hndrest ?_]
    · simp
    · intro r hr q hq
      rcases List.mem_append.mp hq with hq1 | hq2
      · exact hdis r (List.mem_cons_of_mem p hr) q hq1
      · have hq2' : q = ((goSplit p.1 '/').getLastD "", p.2) := by simpa using hq2
        subst hq2'
        intro hcontra
        exact hnotin ⟨r, hr, hcontra.symm⟩

/-- C6: refreshing an `SSM` source whose identifier ends in `/*` queries
`GetParametersByPath` at the identifier with the trailing `/*` removed and
binds, under the entry's map key, a map keyed by the last `/`-separated
segment of each returned parameter name, with the corresponding values
(parameter names assumed to have distinct last segments, matching the Go
map build). -/
theorem RefreshMap_ssm_path_last_segment (key nm ident : String) (w : World)
    (ps : List (String × String))
    (hsfx : goHasSfx ident "/*" = true)
    (hpath : w.GetParametersByPath (ident.dropRight 2) = .ok ps)
    (hseg : (ps.map (fun p => (goSplit p.1 '/').getLastD "")).Nodup) :
    RefreshMap [(key, .vsrc ⟨"SSM", nm, ident⟩)] w =
      .ok [(key, .vmap (strMapToEntries
        (ps.map (fun p => ((goSplit p.1 '/').getLastD "", p.2)))))] := by
  have hmap := foldl_strUpsert_eq_map ps [] hseg (by simp)
  simp only [List.nil_append] at hmap
  simp only [RefreshMap, RefreshMapAux, RefreshEntry, refreshSource, getParametersByPath,
        hsfx, hpath, lastSegmentMap, if_true, upsert_nil]
  rw [hmap]

/-- Witness for C6: one concrete path query with two parameters, keyed by
their last segments. -/
theorem RefreshMap_ssm_path_witness :
    RefreshMap [("k", .vsrc ⟨"SSM", "nm", "/app/db/*"⟩)] exWorldOk =
      .ok [("k", .vmap (strMapToEntries
        ([("/app/db/host", "h1"), ("/app/db/port", "5432")].map
          (fun p => ((goSplit p.1 '/').getLastD "", p.2)))))] :=
  RefreshMap_ssm_path_last_segment "k" "nm" "/app/db/*" exWorldOk
    [("/app/db/host", "h1"), ("/app/db/port", "5432")] (by decide) rfl (by decide)

theorem GenerateFromMapAux_id (c : ConfigValues) :
    ∀ (src dst : Entries),
      noPfxEntries c src = true → wfEntries src = true →
      src.all (fun p => dst.all (fun q => !(q.1 == p.1))) = true →
      GenerateFromMapAux c src dst = .ok (dst ++ src) := by
  refine GenerateFromMapAux.induct c
    (fun key value =>
      (findPfxMatch c.KeyPrefixes key == none) = true →
      noPfxValue c value = true → wfValue value = true →
      GenerateEntry c key value = .ok (key, value))
    (fun src dst =>
      noPfxEntries c src = true → wfEntries src = true →
      src.all (fun p => dst.all (fun q => !(q.1 == p.1))) = true →
      GenerateFromMapAux c src dst = .ok (dst ++ src))
    ?_ ?_ ?_ ?_ ?_ ?_ ?_ ?_ ?_
  · intro key m e herr ih _hk hval hwf
    simp only [noPfxValue] at hval
    simp only [wfValue] at hwf
    rw [ih hval hwf (by simp)] at herr
    exact Except.noConfusion herr
  · intro key m val hok ih _hk hval hwf
    simp only [noPfxValue] at hval
    simp only [wfValue] at hwf
    rw [ih hval hwf (by simp)] at hok
    simp only [List.nil_append] at hok
    injection hok with hval2
    subst hval2
    simp [GenerateEntry, ih hval hwf (by simp)]
  · intro key s secretType pfx hsome hk _hval _hwf
    rw [hsome] at hk
    exact Bool.noConfusion hk
  · intro key s hknone secretType pfx hvsome _hk hval _hwf
    simp only [noPfxValue, hvsome] at hval
    exact Bool.noConfusion hval
  · intro key s hknone hvnone _hk _hval _hwf
    simp [GenerateEntry, hknone, hvnone]
  · intro key v hnm hns _hk _hval _hwf
    cases v with
    | vstr s => exact absurd rfl (hns s)
    | vmap m => exact absurd rfl (hnm m)
    | vsrc s => simp [GenerateEntry]
    | vother n => simp [GenerateEntry]
  · intro dst _h1 _h2 _h3
    simp [GenerateFromMapAux]
  · intro key value rest dst e herr ih1 h1 h2 _h3
    simp only [noPfxEntries, Bool.and_eq_true] at h1
    simp only [wfEntries, Bool.and_eq_true] at h2
    rw [ih1 h1.1.1 h1.1.2 h2.1.2] at herr
    exact Except.noConfusion herr
  · intro key value rest dst k v hok ih1 ih2 h1 h2 h3
    simp only [noPfxEntries, Bool.and_eq_true] at h1
    simp only [wfEntries, Bool.and_eq_true] at h2
    obtain ⟨⟨hk, hval⟩, hrest⟩ := h1
    obtain ⟨⟨hwfall, hwfval⟩, hwfrest⟩ := h2
    rw [ih1 hk hval hwfval] at hok
    injection hok with hkv
    injection hkv with hkk hvv
    subst hkk
    subst hvv
    simp only [List.all_cons, Bool.and_eq_true] at h3
    obtain ⟨hdsthead, hdstrest⟩ := h3
    have hup : upsert dst key value = dst ++ [(key, value)] :=
      upsert_append dst key value hdsthead
    have hdisj2 : (rest.all fun p => List.all (dst ++ [(key, value)]) fun q => !(q.1 == p.1)) = true := by
      simp only [List.all_eq_true] at hdstrest hwfall ⊢
      intro p hp q hq
      rcases List.mem_append.mp hq with hq1 | hq2
      · exact hdstrest p hp q hq1
      · have hq2' : q = (key, value) := by simpa using hq2
        subst hq2'
        have hne := hwfall p hp
        simp only [Bool.not_eq_true', beq_eq_false_iff_ne, ne_eq] at hne ⊢
        exact fun hcontra => hne hcontra.symm
    simp only [GenerateFromMapAux, ih1 hk hval hwfval]
    rw [hup] at ih2
    rw [hup, ih2 hrest hwfrest hdisj2]
    simp

theorem RefreshMapAux_id (w : World) :
    ∀ (src dst : Entries),
      sourceFreeEntries src = true → wfEntries src = true →
      src.all (fun p => dst.all (fun q => !(q.1 == p.1))) = true →
      RefreshMapAux w src dst = .ok (dst ++ src) := by
  refine RefreshMapAux.induct w
    (fun key value =>
      sourceFreeValue value = true → wfValue value = true →
      RefreshEntry w key value = .ok (some (key, value)))
    (fun src dst =>
      sourceFreeEntries src = true → wfEntries src = true →
      src.all (fun p => dst.all (fun q => !(q.1 == p.1))) = true →
      RefreshMapAux w src dst = .ok (dst ++ src))
    ?_ ?_ ?_ ?_ ?_ ?_ ?_ ?_
  · intro key m e herr ih hsf hwf
    simp only [sourceFreeValue] at hsf
    simp only [wfValue] at hwf
    rw [ih hsf hwf (by simp)] at herr
    exact Except.noConfusion herr
  · intro key m val hok ih hsf hwf
    simp only [sourceFreeValue] at hsf
    simp only [wfValue] at hwf
    rw [ih hsf hwf (by simp)] at hok
    simp only [List.nil_append] at hok
    injection hok with hval2
    subst hval2
    simp [RefreshEntry, ih hsf hwf (by simp)]
  · intro key source hsf _hwf
    simp only [sourceFreeValue] at hsf
    exact Bool.noConfusion hsf
  · intro key v hnm hns _hsf _hwf
    cases v with
    | vstr s => simp [RefreshEntry]
    | vother n => simp [RefreshEntry]
    | vmap m => exact absurd rfl (hnm m)
    | vsrc s => exact absurd rfl (hns s)
  · intro dst _h1 _h2 _h3
    simp [RefreshMapAux]
  · intro key value rest dst e herr ih1 h1 h2 _h3
    simp only [sourceFreeEntries, Bool.and_eq_true] at h1
    simp only [wfEntries, Bool.and_eq_true] at h2
    rw [ih1 h1.1 h2.1.2] at herr
    exact Except.noConfusion herr
  · intro key value rest dst hnone ih1 _ih2 h1 h2 _h3
    simp only [sourceFreeEntries, Bool.and_eq_true] at h1
    simp only [wfEntries, Bool.and_eq_true] at h2
    rw [ih1 h1.1 h2.1.2] at hnone
    injection hnone with hcontra
    exact Option.noConfusion hcontra
  · intro key value rest dst k v hok ih1 ih2 h1 h2 h3
    simp only [sourceFreeEntries, Bool.and_eq_true] at h1
    simp only [wfEntries, Bool.and_eq_true] at h2
    obtain ⟨hsf, hsfrest⟩ := h1
    obtain ⟨⟨hwfall, hwfval⟩, hwfrest⟩ := h2
    rw [ih1 hsf hwfval] at hok
    injection hok with hkv
    injection hkv with hkv2
    injection hkv2 with hkk hvv
    subst hkk
    subst hvv
    simp only [List.all_cons, Bool.and_eq_true] at h3
    obtain ⟨hdsthead, hdstrest⟩ := h3
    have hup : upsert dst key value = dst ++ [(key, value)] :=
      upsert_append dst key value hdsthead
    have hdisj2 : (rest.all fun p => List.all (dst ++ [(key, value)]) fun q => !(q.1 == p.1)) = true := by
      simp only [List.all_eq_true] at hdstrest hwfall ⊢
      intro p hp q hq
      rcases List.mem_append.mp hq with hq1 | hq2
      · exact hdstrest p hp q hq1
      · have hq2' : q = (key, value) := by simpa using hq2
        subst hq2'
        have hne := hwfall p hp
        simp only [Bool.not_eq_true', beq_eq_false_iff_ne, ne_eq] at hne ⊢
        exact fun hcontra => hne hcontra.symm
    simp only [RefreshMapAux, ih1 hsf hwfval]
    rw [hup] at ih2
    rw [hup, ih2 hsfrest hwfrest hdisj2]
    simp

/-- C3: on a nested map in which no key carries a key-prefix of the
configuration and no string value carries a value-prefix (and whose keys
are distinct at every level, as Go maps guarantee), `GenerateFromMap` is
the identity transform and returns a nil error. -/
theorem GenerateFromMap_identity_on_unprefixed (c : ConfigValues) (m : Entries)
    (h1 : noPfxEntries c m = true) (h2 : wfEntries m = true) :
    GenerateFromMap c m = .ok m := by
  have h := GenerateFromMapAux_id c m [] h1 h2 (by simp)
  simpa [GenerateFromMap] using h

/-- Witness for C3 at a concrete prefix-free nested map. -/
theorem GenerateFromMap_identity_witness :
    GenerateFromMap NewConfigValues exPlain = .ok exPlain :=
  GenerateFromMap_identity_on_unprefixed NewConfigValues exPlain (by decide) (by decide)

/-- C8: a configuration without provider placeholders (no prefixed keys or
values, no `Source` values, distinct keys) resolves to itself, and
resolving the result again returns it unchanged — the
`GenerateFromMap`-then-`RefreshMap` pipeline is idempotent on such
configurations. -/
theorem resolveConfig_idempotent_on_plain (c : ConfigValues) (w : World) (src : Entries)
    (h1 : noPfxEntries c src = true) (h2 : sourceFreeEntries src = true)
    (h3 : wfEntries src = true) :
    resolveConfig c w src = .ok src ∧
    ∀ out, resolveConfig c w src = .ok out → resolveConfig c w out = .ok out := by
  have hgen : GenerateFromMap c src = .ok src := by
    have h := GenerateFromMapAux_id c src [] h1 h3 (by simp)
    simpa [GenerateFromMap] using h
  have href : RefreshMap src w = .ok src := by
    have h := RefreshMapAux_id w src [] h2 h3 (by simp)
    simpa [RefreshMap] using h
  have hres : resolveConfig c w src = .ok src := by
    simp [resolveConfig, hgen, href]
  refine ⟨hres, ?_⟩
  intro out hout
  rw [hres] at hout
  injection hout with h
  subst h
  exact hres

/-- Witness for C8 at a concrete placeholder-free nested map. -/
theorem resolveConfig_idempotent_witness :
    resolveConfig NewConfigValues exWorldOk exPlain = .ok exPlain :=
  (resolveConfig_idempotent_on_plain NewConfigValues exWorldOk exPlain
    (by decide) (by decide) (by decide)).1

theorem firstOkIdx_none_iff (p : Nat → Bool) :
    ∀ (n start : Nat), firstOkIdx p start n = none ↔ ∀ i, i < n → p (start + i) = false := by
  intro n
  induction n with
  | zero => intro start; simp [firstOkIdx]
  | succ m ih =>
    intro start
    simp only [firstOkIdx]
    cases hp : p start with
    | true =>
      simp only [if_true]
      constructor
      · intro h; exact Option.noConfusion h
      · intro h
        have h0 := h 0 (Nat.succ_pos m)
        rw [Nat.add_zero, hp] at h0
        exact Bool.noConfusion h0
    | false =>
      simp only [Bool.false_eq_true, if_false, Option.map_eq_none']
      rw [ih (start + 1)]
      constructor
      · intro h i hi
        cases i with
        | zero => simpa using hp
        | succ i2 =>
          have h2 := h i2 (by omega)
          rw [show start + (i2 + 1) = start + 1 + i2 by omega]
          exact h2
      · intro h i hi
        have h2 := h (i + 1) (by omega)
        rw [show start + 1 + i = start + (i + 1) by omega]
        exact h2

theorem firstOkIdx_some_spec (p : Nat → Bool) :
    ∀ (n start j : Nat), firstOkIdx p start n = some j →
      j < n ∧ p (start + j) = true ∧ ∀ i, i < j → p (start + i) = false := by
  intro n
  induction n with
  | zero => intro start j h; exact Option.noConfusion h
  | succ m ih =>
    intro start j h
    simp only [firstOkIdx] at h
    cases hp : p start with
    | true =>
      rw [hp] at h
      simp only [if_true, Option.some.injEq] at h
      subst h
      exact ⟨Nat.succ_pos m, by simpa using hp, fun i hi => absurd hi (Nat.not_lt_zero i)⟩
    | false =>
      rw [hp] at h
      simp only [Bool.false_eq_true, if_false, Option.map_eq_some'] at h
      obtain ⟨j2, hj2, rfl⟩ := h
      obtain ⟨hlt, hok, hbefore⟩ := ih (start + 1) j2 hj2
      refine ⟨by omega, ?_, ?_⟩
      · rw [show start + (j2 + 1) = start + 1 + j2 by omega]
        exact hok
      · intro i hi
        cases i with
        | zero => simpa using hp
        | succ i2 =>
          have h2 := hbefore i2 (by omega)
          rw [show start + (i2 + 1) = start + 1 + i2 by omega]
          exact h2

theorem range_backoff_shift (wait k : Nat) :
    (List.range (k + 1)).map (fun i => wait * 2 ^ (i + 1)) =
      wait * 2 :: (List.range k).map (fun i => wait * 2 * 2 ^ (i + 1)) := by
  rw [List.range_succ_eq_map, List.map_cons, List.map_map]
  refine congrArg₂ List.cons (by ring) ?_
  congr 1
  funext i
  simp only [Function.comp_apply, Nat.succ_eq_add_one]
  ring

theorem RefreshWithRetriesAux_spec (c : ConfigValues) (ws : Nat → World) :
    ∀ (remaining wait attempts : Nat) (sleeps : List Nat),
      RefreshWithRetriesAux ws c remaining wait attempts sleeps =
        match firstOkIdx (fun i => exceptIsOk (Refresh c (ws i)).1) attempts remaining with
        | some j =>
          ⟨(Refresh c (ws (attempts + j))).1, attempts + j + 1,
           sleeps.reverse ++ (List.range j).map (fun i => wait * 2 ^ (i + 1)), c⟩
        | none =>
          ⟨.error "Failed to refresh config", attempts + remaining,
           sleeps.reverse ++ (List.range remaining).map (fun i => wait * 2 ^ (i + 1)), c⟩ := by
  intro remaining
  induction remaining with
  | zero =>
    intro wait attempts sleeps
    simp [RefreshWithRetriesAux, firstOkIdx]
  | succ n ih =>
    intro wait attempts sleeps
    simp only [RefreshWithRetriesAux, firstOkIdx]
    cases hro : RefreshMap c.Static (ws attempts) with
    | ok env =>
      have hcond : exceptIsOk (Refresh c (ws attempts)).1 = true := by
        simp [Refresh, hro, exceptIsOk]
      simp [Refresh, hro, hcond, exceptIsOk]
    | error e =>
      have hcond : exceptIsOk (Refresh c (ws attempts)).1 = false := by
        simp [Refresh, hro, exceptIsOk]
      have hstep :
          (match Refresh c (ws attempts) with
            | (.ok env, c2) => RetryOutcome.mk (.ok env) (attempts + 1) sleeps.reverse c2
            | (.error _, c2) =>
              RefreshWithRetriesAux ws c2 n (wait * 2) (attempts + 1) ((wait * 2) :: sleeps)) =
            RefreshWithRetriesAux ws c n (wait * 2) (attempts + 1) ((wait * 2) :: sleeps) := by
        simp [Refresh, hro]
      rw [hstep, ih (wait * 2) (attempts + 1) ((wait * 2) :: sleeps)]
      simp only [hcond, Bool.false_eq_true, if_false]
      cases hfo : firstOkIdx (fun i => exceptIsOk (Refresh c (ws i)).1) (attempts + 1) n with
      | some j =>
        simp only [hfo, Option.map_some']
        rw [show attempts + 1 + j = attempts + (j + 1) by omega]
        rw [range_backoff_shift wait j]
        simp [List.append_assoc]
      | none =>
        simp only [hfo, Option.map_none']
        rw [show attempts + 1 + n = attempts + (n + 1) by omega]
        rw [range_backoff_shift wait n]
        simp [List.append_assoc]

theorem exceptIsOk_true_no_error {ε α : Type} (x : Except ε α) (h : exceptIsOk x = true) :
    ∀ e, x ≠ .error e := by
  cases x with
  | ok a => intro e hcontra; exact Except.noConfusion hcontra
  | error e => simp [exceptIsOk] at h

/-- C1: `RefreshWithRetries` calls `Refresh` at most `MaxRetries` times
(5 in a `NewConfigValues` configuration); it returns the successful result
as soon as one attempt succeeds (after `i + 1` calls when attempt `i` is
the first success), and it returns an error exactly when all `MaxRetries`
attempts fail. -/
theorem RefreshWithRetries_attempt_spec (c : ConfigValues) (ws : Nat → World) :
    NewConfigValues.MaxRetries = 5 ∧
    (RefreshWithRetries c ws).attempts ≤ c.MaxRetries ∧
    (∀ i, i < c.MaxRetries →
      exceptIsOk (Refresh c (ws i)).1 = true →
      (∀ j, j < i → exceptIsOk (Refresh c (ws j)).1 = false) →
      (RefreshWithRetries c ws).result = (Refresh c (ws i)).1 ∧
      (RefreshWithRetries c ws).attempts = i + 1) ∧
    ((∃ e, (RefreshWithRetries c ws).result = Except.error e) ↔
      (∀ i, i < c.MaxRetries → exceptIsOk (Refresh c (ws i)).1 = false)) := by
  have hRW : RefreshWithRetries c ws =
      match firstOkIdx (fun i => exceptIsOk (Refresh c (ws i)).1) 0 c.MaxRetries with
      | some j =>
        ⟨(Refresh c (ws (0 + j))).1, 0 + j + 1,
         List.reverse [] ++ (List.range j).map (fun i => 2 * 2 ^ (i + 1)), c⟩
      | none =>
        ⟨.error "Failed to refresh config", 0 + c.MaxRetries,
         List.reverse [] ++ (List.range c.MaxRetries).map (fun i => 2 * 2 ^ (i + 1)), c⟩ :=
    RefreshWithRetriesAux_spec c ws c.MaxRetries 2 0 []
  cases hfo : firstOkIdx (fun i => exceptIsOk (Refresh c (ws i)).1) 0 c.MaxRetries with
  | some j =>
    rw [hfo] at hRW
    obtain ⟨hjlt, hjok, hjbefore⟩ :=
      firstOkIdx_some_spec (fun i => exceptIsOk (Refresh c (ws i)).1) c.MaxRetries 0 j hfo
    simp only [Nat.zero_add] at hjok hjbefore
    refine ⟨rfl, ?_, ?_, ?_⟩
    · rw [hRW]
      simpa using hjlt
    · intro i hi hoki hbefore
      have hij : i = j := by
        rcases Nat.lt_trichotomy i j with hlt | heq | hgt
        · rw [hjbefore i hlt] at hoki
          exact Bool.noConfusion hoki
        · exact heq
        · rw [hbefore j hgt] at hjok
          exact Bool.noConfusion hjok
      subst hij
      rw [hRW]
      exact ⟨by simp, by simp⟩
    · constructor
      · rintro ⟨e, he⟩
        rw [hRW] at he
        simp only [Nat.zero_add] at he
        exact absurd he (exceptIsOk_true_no_error _ hjok e)
      · intro hall
        rw [hall j hjlt] at hjok
        exact Bool.noConfusion hjok
  | none =>
    rw [hfo] at hRW
    have hall := (firstOkIdx_none_iff (fun i => exceptIsOk (Refresh c (ws i)).1)
      c.MaxRetries 0).mp hfo
    simp only [Nat.zero_add] at hall
    refine ⟨rfl, ?_, ?_, ?_⟩
    · rw [hRW]
      simp
    · intro i hi hoki _hbefore
      rw [hall i hi] at hoki
      exact Bool.noConfusion hoki
    · exact ⟨fun _ => hall, fun _ => ⟨"Failed to refresh config", by rw [hRW]⟩⟩

/-- Witness for C1: with a world sequence whose first attempt fails and
second succeeds, the retry loop returns the second attempt's result after
exactly two `Refresh` calls. -/
theorem RefreshWithRetries_attempt_witness :
    (RefreshWithRetries exConfig exWorlds).result = (Refresh exConfig (exWorlds 1)).1 ∧
    (RefreshWithRetries exConfig exWorlds).attempts = 1 + 1 :=
  (RefreshWithRetries_attempt_spec exConfig exWorlds).2.2.1 1 (by decide) (by decide)
    (fun j hj => by
      have hj0 : j = 0 := Nat.lt_one_iff.mp hj
      subst hj0
      decide)

/-- C7: the `time.Sleep` durations of `RefreshWithRetries` form the
sequence 4, 8, 16, … seconds — one sleep after every failed attempt, the
first lasting 4 seconds (2×2) and each subsequent one double the previous
(so the sleep count is the number of failed attempts: one fewer than the
call count on success, equal to it when every attempt failed). -/
theorem RefreshWithRetries_doubling_backoff (c : ConfigValues) (ws : Nat → World) :
    (RefreshWithRetries c ws).sleeps =
      (List.range (if exceptIsOk (RefreshWithRetries c ws).result then
                     (RefreshWithRetries c ws).attempts - 1
                   else (RefreshWithRetries c ws).attempts)).map
        (fun i => 4 * 2 ^ i) := by
  have hRW : RefreshWithRetries c ws =
      match firstOkIdx (fun i => exceptIsOk (Refresh c (ws i)).1) 0 c.MaxRetries with
      | some j =>
        ⟨(Refresh c (ws (0 + j))).1, 0 + j + 1,
         List.reverse [] ++ (List.range j).map (fun i => 2 * 2 ^ (i + 1)), c⟩
      | none =>
        ⟨.error "Failed to refresh config", 0 + c.MaxRetries,
         List.reverse [] ++ (List.range c.MaxRetries).map (fun i => 2 * 2 ^ (i + 1)), c⟩ :=
    RefreshWithRetriesAux_spec c ws c.MaxRetries 2 0 []
  have hpow : ∀ k, (List.range k).map (fun i => 2 * 2 ^ (i + 1)) =
      (List.range k).map (fun i => 4 * 2 ^ i) := by
    intro k
    congr 1
    funext i
    ring
  cases hfo : firstOkIdx (fun i => exceptIsOk (Refresh c (ws i)).1) 0 c.MaxRetries with
  | some j =>
    rw [hfo] at hRW
    obtain ⟨_hjlt, hjok, _hjbefore⟩ :=
      firstOkIdx_some_spec (fun i => exceptIsOk (Refresh c (ws i)).1) c.MaxRetries 0 j hfo
    simp only [Nat.zero_add] at hjok
    rw [hRW]
    simp [hjok, hpow j]
  | none =>
    rw [hfo] at hRW
    rw [hRW]
    simp [exceptIsOk, hpow c.MaxRetries]

theorem refreshSource_fetch (w : World) (key : String) (s : Source) :
    (∀ out, refreshSource w key s = .ok out → exceptIsOk (sourceFetch w s) = true) ∧
    (∀ e, refreshSource w key s = .error e → sourceFetch w s = .error e) := by
  by_cases h1 : s.type_ = "FILE"
  · simp only [refreshSource, sourceFetch, h1]
    cases hr : w.ReadFile s.Identifier <;> simp [exceptIsOk]
  · by_cases h2 : s.type_ = "SSM"
    · simp only [refreshSource, sourceFetch, h2]
      cases hsfx : goHasSfx s.Identifier "/*" with
      | true =>
        simp only [if_true]
        cases hr : getParametersByPath w (s.Identifier.dropRight 2) <;> simp [exceptIsOk]
      | false =>
        simp only [Bool.false_eq_true, if_false]
        cases hr : ssmGetParameter w s.Identifier <;> simp [exceptIsOk]
    · by_cases h3 : s.type_ = "SECRETS_MANAGER"
      · simp only [refreshSource, sourceFetch, h3]
        cases hr : secretsManagerGetSecretValue w s.Identifier <;> simp [exceptIsOk]
      · by_cases h4 : s.type_ = "KMS"
        · simp only [refreshSource, sourceFetch, h4]
          cases hr : DecryptWithKMS w s.Identifier <;> simp [exceptIsOk]
        · simp only [refreshSource, sourceFetch]
          constructor
          · intro out _hout
            rfl
          · intro e he
            exact Except.noConfusion he

theorem RefreshMapAux_fetch (w : World) :
    ∀ (src dst : Entries),
      (∀ m, RefreshMapAux w src dst = .ok m →
        ∀ s ∈ sourcesOfEntries src, exceptIsOk (sourceFetch w s) = true) ∧
      (∀ e, RefreshMapAux w src dst = .error e →
        ∃ s ∈ sourcesOfEntries src, sourceFetch w s = .error e) := by
  refine RefreshMapAux.induct w
    (fun key value =>
      (∀ out, RefreshEntry w key value = .ok out →
        ∀ s ∈ sourcesOfValue value, exceptIsOk (sourceFetch w s) = true) ∧
      (∀ e, RefreshEntry w key value = .error e →
        ∃ s ∈ sourcesOfValue value, sourceFetch w s = .error e))
    (fun src dst =>
      (∀ m, RefreshMapAux w src dst = .ok m →
        ∀ s ∈ sourcesOfEntries src, exceptIsOk (sourceFetch w s) = true) ∧
      (∀ e, RefreshMapAux w src dst = .error e →
        ∃ s ∈ sourcesOfEntries src, sourceFetch w s = .error e))
    ?_ ?_ ?_ ?_ ?_ ?_ ?_ ?_
  · intro key m e herr ih
    constructor
    · intro out hout
      simp only [RefreshEntry, herr] at hout
      exact Except.noConfusion hout
    · intro e2 he2
      simp only [RefreshEntry, herr, Except.error.injEq] at he2
      subst he2
      simpa [sourcesOfValue] using ih.2 e herr
  · intro key m val hok ih
    constructor
    · intro out _hout s hs
      simp only [sourcesOfValue] at hs
      exact ih.1 val hok s hs
    · intro e he
      simp only [RefreshEntry, hok] at he
      exact Except.noConfusion he
  · intro key source
    constructor
    · intro out hout s hs
      simp only [sourcesOfValue, List.mem_singleton] at hs
      simp only [RefreshEntry] at hout
      rw [hs]
      exact (refreshSource_fetch w key source).1 out hout
    · intro e he
      simp only [RefreshEntry] at he
      exact ⟨source, List.mem_singleton_self source,
        (refreshSource_fetch w key source).2 e he⟩
  · intro key v hnm hns
    constructor
    · intro out hout s hs
      cases v with
      | vstr str => simp [sourcesOfValue] at hs
      | vother n => simp [sourcesOfValue] at hs
      | vmap m => exact absurd rfl (hnm m)
      | vsrc src2 => exact absurd rfl (hns src2)
    · intro e he
      cases v with
      | vstr str => simp [RefreshEntry] at he
      | vother n => simp [RefreshEntry] at he
      | vmap m => exact absurd rfl (hnm m)
      | vsrc src2 => exact absurd rfl (hns src2)
  · intro dst
    constructor
    · intro m _hok s hs
      simp [sourcesOfEntries] at hs
    · intro e he
      simp [RefreshMapAux] at he
  · intro key value rest dst e herr ih1
    constructor
    · intro m hok
      simp only [RefreshMapAux, herr] at hok
      exact Except.noConfusion hok
    · intro e2 he2
      simp only [RefreshMapAux, herr, Except.error.injEq] at he2
      subst he2
      obtain ⟨s, hs, hfetch⟩ := ih1.2 e herr
      exact ⟨s, by simp [sourcesOfEntries, List.mem_append, hs], hfetch⟩
  · intro key value rest dst hnone ih1 ih2
    constructor
    · intro m hok s hs
      simp only [sourcesOfEntries, List.mem_append] at hs
      rcases hs with hs1 | hs2
      · exact ih1.1 none hnone s hs1
      · simp only [RefreshMapAux, hnone] at hok
        exact ih2.1 m hok s hs2
    · intro e he
      simp only [RefreshMapAux, hnone] at he
      obtain ⟨s, hs, hfetch⟩ := ih2.2 e he
      exact ⟨s, by simp [sourcesOfEntries, List.mem_append, hs], hfetch⟩
  · intro key value rest dst k v hok ih1 ih2
    constructor
    · intro m hm s hs
      simp only [sourcesOfEntries, List.mem_append] at hs
      rcases hs with hs1 | hs2
      · exact ih1.1 (some (k, v)) hok s hs1
      · simp only [RefreshMapAux, hok] at hm
        exact ih2.1 m hm s hs2
    · intro e he
      simp only [RefreshMapAux, hok] at he
      obtain ⟨s, hs, hfetch⟩ := ih2.2 e he
      exact ⟨s, by simp [sourcesOfEntries, List.mem_append, hs], hfetch⟩

/-- C2: if any provider fetch demanded by a `Source` of the configuration
fails under the world `w`, `Refresh` returns an error (so the output
target is never written: no map is produced), the returned error is the
error of one of the provider fetches, and conversely a successful refresh
implies every provider fetch demanded by the configuration succeeded — no
partially resolved output is possible. -/
theorem Refresh_aborts_on_provider_error (c : ConfigValues) (w : World) :
    ((∃ s ∈ sourcesOfEntries c.Static, exceptIsOk (sourceFetch w s) = false) →
      ∃ e, (Refresh c w).1 = Except.error e) ∧
    (∀ e, (Refresh c w).1 = Except.error e →
      ∃ s ∈ sourcesOfEntries c.Static, sourceFetch w s = .error e) ∧
    (∀ env, (Refresh c w).1 = .ok env →
      ∀ s ∈ sourcesOfEntries c.Static, exceptIsOk (sourceFetch w s) = true) := by
  obtain ⟨hok, herr⟩ := RefreshMapAux_fetch w c.Static []
  refine ⟨?_, ?_, ?_⟩
  · rintro ⟨s, hs, hfail⟩
    cases hx : (Refresh c w).1 with
    | error e => exact ⟨e, rfl⟩
    | ok env =>
      have hx2 : RefreshMapAux w c.Static [] = .ok env := hx
      rw [hok env hx2 s hs] at hfail
      exact Bool.noConfusion hfail
  · intro e he
    exact herr e he
  · intro env he
    exact hok env he

/-- Witness for C2: with the all-failing world, refreshing the example
configuration (one `FILE` source) aborts with an error. -/
theorem Refresh_aborts_witness :
    ∃ e, (Refresh exConfig exWorldFail).1 = Except.error e :=
  (Refresh_aborts_on_provider_error exConfig exWorldFail).1
    ⟨⟨"FILE", "x", "/tmp/x"⟩, by decide, by decide⟩

end Awstools
